import Mathlib

/-!
Verification of the batch audit pipeline of the SmartAudit Pro repository.

The definitions below are a shallow embedding of the TypeScript sources:
  - `src/types.ts` (data model: AuditStatus, AuditIssue, AuditResult, DocFile, RuleConfig),
  - `src/services/auditService.ts` (`analyzeReport`),
  - `src/api/analyze-report.ts` (the serverless judgment `handler`),
  - `src/components/Dashboard.tsx` (`processFile`, `runBatchAudit`, `processNewFiles`,
    `exportToCSV` and its `escape` helper),
  - `src/services/ruleImporter.ts` (`parseRulesFile`).

External effects (the fetch to the judgment service, docx extraction, random id
generation, wall-clock timestamps, the `window.confirm` dialog) are modelled as
explicit oracle parameters: a function argument stands for the outcome the
environment produces.  The cooperative concurrency of `runBatchAudit` is
modelled as a labelled transition system over an explicit scheduler state, with
one atomic transition per synchronous segment of a worker (JavaScript's event
loop never preempts between two `await` points).
-/

/-! ## Data model (src/types.ts) -/

/-- Embedding of the `AuditStatus` enum of `src/types.ts`. -/
inductive AuditStatus where
  | IDLE : AuditStatus
  | PROCESSING : AuditStatus
  | PASS : AuditStatus
  | FAIL : AuditStatus
  | WARNING : AuditStatus
  | ERROR : AuditStatus
deriving DecidableEq, Repr

/-- String value carried by each `AuditStatus` enum member in the source. -/
def AuditStatus.str : AuditStatus → String
  | AuditStatus.IDLE => "IDLE"
  | AuditStatus.PROCESSING => "PROCESSING"
  | AuditStatus.PASS => "PASS"
  | AuditStatus.FAIL => "FAIL"
  | AuditStatus.WARNING => "WARNING"
  | AuditStatus.ERROR => "ERROR"

/-- Embedding of the `RuleCategory` union type of `src/types.ts`. -/
inductive RuleCategory where
  | text_editing : RuleCategory
  | workflow_logic : RuleCategory
  | result_determination : RuleCategory
  | special_rules : RuleCategory
deriving DecidableEq, Repr

/-- Embedding of the severity union type `'high' | 'medium' | 'low'`. -/
inductive Severity where
  | high : Severity
  | medium : Severity
  | low : Severity
deriving DecidableEq, Repr

/-- Embedding of the `AuditIssue` interface of `src/types.ts`.  The optional
`location` field is modelled as a `String`, with `""` standing for an absent
value (the source only ever reads it through the falsy-defaulting
`issue.location || ''`). -/
structure AuditIssue where
  rule : String
  description : String
  severity : Severity
  location : String
  category : RuleCategory
deriving DecidableEq, Repr

/-- Embedding of the `AuditResult` interface of `src/types.ts`. -/
structure AuditResult where
  status : AuditStatus
  summary : String
  issues : List AuditIssue
  processedAt : String
deriving DecidableEq, Repr

/-- Embedding of the `DocFile` interface of `src/types.ts`.  The raw `File`
handle is represented by its observable `name`; `content` is the extracted
HTML (empty string when not yet extracted, exactly as in the source, which
tests it with the falsy check `if (!content)`). -/
structure DocFile where
  id : String
  name : String
  content : String
  auditResult : Option AuditResult
  isProcessing : Bool
deriving DecidableEq, Repr

/-- Embedding of the `RuleConfig` interface of `src/types.ts`. -/
structure RuleConfig where
  id : String
  text : String
  enabled : Bool
  category : RuleCategory
deriving DecidableEq, Repr

/-! ## Judgment client (src/services/auditService.ts) -/

/-- Outcome of the `fetch("/api/analyze-report", ...)` call inside
`analyzeReport`, as observed by its `try` block: a parsed `AuditResult` on a
2xx response with valid JSON, a non-2xx HTTP status (the source then throws
an error whose message embeds the status code), an `AbortError` from the 30s
`AbortSignal.timeout`, or any other thrown error with its message. -/
inductive FetchOutcome where
  | ok : AuditResult → FetchOutcome
  | httpError : Nat → FetchOutcome
  | abortError : FetchOutcome
  | otherError : String → FetchOutcome
deriving DecidableEq, Repr

/-- Verdict synthesized by the `catch` block of `analyzeReport` in
`src/services/auditService.ts`: status `ERROR`, the failure message as
summary, and a single `special_rules`/`high` issue. -/
def analyzeReportFailure (now msg : String) : AuditResult :=
  { status := AuditStatus.ERROR
    summary := msg
    issues := [{ rule := "服务调用失败"
                 description := msg
                 severity := Severity.high
                 location := ""
                 category := RuleCategory.special_rules }]
    processedAt := now }

/-- Embedding of `analyzeReport` of `src/services/auditService.ts`.  The
network call is an oracle outcome; `now` stands for `new Date().toISOString()`.
A non-2xx response throws `` `请求失败啦 [status]` `` which the catch block then
uses as the message; an `AbortError` maps to the timeout message; any other
error uses its message when non-empty, else the default message. -/
def analyzeReport (now : String) (o : FetchOutcome) : AuditResult :=
  match o with
  | FetchOutcome.ok r => r
  | FetchOutcome.httpError code =>
      analyzeReportFailure now ("请求失败啦 [" ++ toString code ++ "]")
  | FetchOutcome.abortError =>
      analyzeReportFailure now ("请求超时啦（文档太大或网络慢）")
  | FetchOutcome.otherError msg =>
      analyzeReportFailure now (if msg = "" then "审核服务调用失败，请稍后重试" else msg)

/-! ## Per-file processing (src/components/Dashboard.tsx, `processFile`) -/

/-- Embedding of `rules.filter(r => r.enabled).map(r => r.text)` from
`processFile` (Dashboard.tsx line 209): the rule texts sent to the judgment
client. -/
def activeRuleTexts (rules : List RuleConfig) : List String :=
  (rules.filter (fun r => r.enabled)).map (fun r => r.text)

/-- Embedding of `processFile` of `src/components/Dashboard.tsx`.
`extractO` is the outcome of `extractContentFromDocx` (only consulted when
`content` is falsy, i.e. empty); `judgeO` is the fetch outcome for the
judgment call (`analyzeReport` itself never throws, so the `catch` branch of
`processFile` fires exactly on extraction failure, and then synthesizes an
`ERROR` verdict with summary `文件处理失败。` and an empty issues list). -/
def processFile (extractO : DocFile → Except Unit String)
    (judgeO : String → List String → FetchOutcome)
    (rules : List RuleConfig) (now : String) (d : DocFile) : DocFile :=
  match (if d.content = "" then extractO d else Except.ok d.content) with
  | Except.error _ =>
      { d with isProcessing := false
               auditResult := some { status := AuditStatus.ERROR
                                     summary := "文件处理失败。"
                                     issues := []
                                     processedAt := now } }
  | Except.ok content =>
      let result := analyzeReport now (judgeO content (activeRuleTexts rules))
      { d with content := content, auditResult := some result, isProcessing := false }

theorem processFile_id (eO : DocFile → Except Unit String)
    (jO : String → List String → FetchOutcome) (rules : List RuleConfig)
    (now : String) (d : DocFile) : (processFile eO jO rules now d).id = d.id := by
  unfold processFile
  cases (if d.content = "" then eO d else Except.ok d.content) <;> rfl

theorem processFile_verdict_isSome (eO : DocFile → Except Unit String)
    (jO : String → List String → FetchOutcome) (rules : List RuleConfig)
    (now : String) (d : DocFile) :
    (processFile eO jO rules now d).auditResult.isSome = true := by
  unfold processFile
  cases (if d.content = "" then eO d else Except.ok d.content) <;> rfl

theorem processFile_notProcessing (eO : DocFile → Except Unit String)
    (jO : String → List String → FetchOutcome) (rules : List RuleConfig)
    (now : String) (d : DocFile) :
    (processFile eO jO rules now d).isProcessing = false := by
  unfold processFile
  cases (if d.content = "" then eO d else Except.ok d.content) <;> rfl

/-! ## Batch orchestration (src/components/Dashboard.tsx, `runBatchAudit`)

`runBatchAudit` snapshots the unprocessed files, marks them processing,
copies them into a shared queue, and spawns `min(N, CONCURRENT_LIMIT)`
cooperative workers, each of which loops: dequeue one file (the check
`queue.length > 0` together with `queue.shift()` is one synchronous,
non-interruptible segment), await `processFile`, then write the result back
with a by-id functional state update.  We model this as a transition system:
one transition per synchronous segment. -/

/-- Embedding of the `CONCURRENT_LIMIT` constant (Dashboard.tsx line 27). -/
def CONCURRENT_LIMIT : Nat := 3

/-- The oracles and ambient React state a batch run reads: the extraction
outcome, the judgment fetch outcome, the rule list, and the timestamp
source. -/
structure BatchEnv where
  extractO : DocFile → Except Unit String
  judgeO : String → List String → FetchOutcome
  rules : List RuleConfig
  now : String

/-- Control state of one worker task: about to test the queue (`loop`),
awaiting `processFile` on a dequeued document (`busy`), or returned
(`done`). -/
inductive WStatus where
  | loop : WStatus
  | busy : DocFile → WStatus
  | done : WStatus
deriving DecidableEq, Repr

/-- Whether a worker currently holds a dequeued document (its extraction or
judgment call is in flight). -/
def WStatus.isBusy : WStatus → Bool
  | WStatus.busy _ => true
  | _ => false

/-- Scheduler state of one batch run: the shared work queue, the `files`
React state, the worker pool, and a ghost log of dequeue events
`(worker index, document)` used to state exactly-once processing. -/
structure BState where
  queue : List DocFile
  files : List DocFile
  workers : List WStatus
  log : List (Nat × DocFile)
deriving DecidableEq, Repr

/-- Embedding of `files.filter(f => !f.auditResult)` (Dashboard.tsx line
235): the snapshot of unprocessed documents at batch start. -/
def filesToProcess (files0 : List DocFile) : List DocFile :=
  files0.filter (fun f => f.auditResult.isNone)

/-- Embedding of the marking update at Dashboard.tsx line 238:
`prev.map(f => filesToProcess.find(ftp => ftp.id === f.id) ? {...f, isProcessing: true} : f)`. -/
def markProcessing (files0 : List DocFile) : List DocFile :=
  files0.map (fun f =>
    if (filesToProcess files0).any (fun ftp => ftp.id = f.id) then
      { f with isProcessing := true }
    else f)

/-- Initial scheduler state of `runBatchAudit` on registry `files0`: queue is
the unprocessed snapshot, registry entries are marked processing, and
`min(N, CONCURRENT_LIMIT)` workers are spawned (Dashboard.tsx line 263). -/
def initState (files0 : List DocFile) : BState :=
  { queue := filesToProcess files0
    files := markProcessing files0
    workers := List.replicate (min (filesToProcess files0).length CONCURRENT_LIMIT) WStatus.loop
    log := [] }

/-- Embedding of the worker's completion write-back (Dashboard.tsx line 253):
`setFiles(prev => prev.map(f => f.id === processed.id ? processed : f))`. -/
def completeUpdate (files : List DocFile) (processed : DocFile) : List DocFile :=
  files.map (fun f => if f.id = processed.id then processed else f)

/-- One atomic transition of a batch run.  `dequeue`: a looping worker finds
the queue non-empty and shifts its head (recorded in the ghost log);
`exit`: a looping worker finds the queue empty and returns; `complete`: a
busy worker's `processFile` promise resolves and the worker writes the
processed document back by id, then loops. -/
inductive BatchStep (env : BatchEnv) : BState → BState → Prop where
  | dequeue (s : BState) (i : Nat) (d : DocFile) (rest : List DocFile)
      (hw : s.workers.get? i = some WStatus.loop) (hq : s.queue = d :: rest) :
      BatchStep env s { s with queue := rest,
                               workers := s.workers.set i (WStatus.busy d),
                               log := s.log ++ [(i, d)] }
  | exit (s : BState) (i : Nat)
      (hw : s.workers.get? i = some WStatus.loop) (hq : s.queue = []) :
      BatchStep env s { s with workers := s.workers.set i WStatus.done }
  | complete (s : BState) (i : Nat) (d : DocFile)
      (hw : s.workers.get? i = some (WStatus.busy d)) :
      BatchStep env s
        { s with files := completeUpdate s.files
                   (processFile env.extractO env.judgeO env.rules env.now
                     { d with isProcessing := true }),
                 workers := s.workers.set i WStatus.loop }

/-- States reachable by a batch run started on registry `files0`. -/
def BatchReachable (env : BatchEnv) (files0 : List DocFile) (s : BState) : Prop :=
  Relation.ReflTransGen (BatchStep env) (initState files0) s

/-- The batch run is finished: every worker has returned, so the
`Promise.all` at Dashboard.tsx line 266 has resolved. -/
def BatchTerminal (s : BState) : Prop :=
  ∀ w ∈ s.workers, w = WStatus.done

/-! ## Invariants of a batch run -/

theorem get?_lt_length {α : Type} {l : List α} {n : Nat} {a : α}
    (h : l.get? n = some a) : n < l.length := by
  by_contra hc
  rw [Nat.not_lt] at hc
  rw [List.get?_eq_none.mpr hc] at h
  exact Option.noConfusion h

theorem markProcessing_map_id (files0 : List DocFile) :
    (markProcessing files0).map DocFile.id = files0.map DocFile.id := by
  unfold markProcessing
  rw [List.map_map]
  apply List.map_congr_left
  intro f _
  cases h : (filesToProcess files0).any (fun ftp => ftp.id = f.id) <;>
    simp [Function.comp, h]

theorem completeUpdate_map_id (files : List DocFile) (p : DocFile) :
    (completeUpdate files p).map DocFile.id = files.map DocFile.id := by
  unfold completeUpdate
  rw [List.map_map]
  apply List.map_congr_left
  intro f _
  by_cases h : f.id = p.id <;> simp [h]

theorem completeUpdate_get? (files : List DocFile) (p : DocFile) (i : Nat) :
    (completeUpdate files p).get? i
      = (files.get? i).map (fun f => if f.id = p.id then p else f) :=
  List.get?_map _ files i

theorem map_id_get? {l1 l2 : List DocFile}
    (h : l1.map DocFile.id = l2.map DocFile.id) {i : Nat} {f0 : DocFile}
    (h0 : l2.get? i = some f0) : ∃ f, l1.get? i = some f ∧ f.id = f0.id := by
  have h1 : (l1.map DocFile.id).get? i = (l2.map DocFile.id).get? i := by rw [h]
  rw [List.get?_map, List.get?_map, h0] at h1
  cases hl : l1.get? i with
  | none => rw [hl] at h1; exact Option.noConfusion h1
  | some f =>
      rw [hl] at h1
      exact ⟨f, rfl, Option.some.inj h1⟩

/-- Inductive invariant of a batch run started on registry `files0`:
(1) the worker-pool size stays `min(N, CONCURRENT_LIMIT)`;
(2) the registry keeps exactly the starting documents (by position and id);
(3) once any worker has returned, the queue is empty;
(4) every document that was unprocessed at batch start is, at any point,
    either still queued, or held by exactly some busy worker, or finished in
    the registry with a present verdict and `isProcessing = false`;
(5) ghost accounting: per id, dequeue-log entries plus queued entries equal
    the starting unprocessed snapshot's entries. -/
def BatchInv (files0 : List DocFile) (s : BState) : Prop :=
  s.workers.length = min (filesToProcess files0).length CONCURRENT_LIMIT ∧
  s.files.map DocFile.id = files0.map DocFile.id ∧
  ((∃ w ∈ s.workers, w = WStatus.done) → s.queue = []) ∧
  (∀ i f0, files0.get? i = some f0 → f0.auditResult = none →
     f0 ∈ s.queue ∨
     (∃ j d, s.workers.get? j = some (WStatus.busy d) ∧ d.id = f0.id) ∨
     (∃ f, s.files.get? i = some f ∧ f.id = f0.id ∧
        f.auditResult.isSome = true ∧ f.isProcessing = false)) ∧
  (∀ fid : String,
     (s.log.filter (fun e => e.2.id = fid)).length
       + (s.queue.filter (fun f => f.id = fid)).length
       = ((filesToProcess files0).filter (fun f => f.id = fid)).length)

theorem batchInv_init (files0 : List DocFile) : BatchInv files0 (initState files0) := by
  refine ⟨by simp [initState], markProcessing_map_id files0, ?_, ?_, ?_⟩
  · rintro ⟨w, hw, hd⟩
    have := List.eq_of_mem_replicate (show w ∈ List.replicate _ WStatus.loop from hw)
    rw [this] at hd
    exact WStatus.noConfusion hd
  · intro i f0 h0 hnone
    left
    show f0 ∈ filesToProcess files0
    unfold filesToProcess
    rw [List.mem_filter]
    exact ⟨List.get?_mem h0, by rw [hnone]; rfl⟩
  · intro fid
    simp [initState]

theorem get?_set_self {α : Type} (l : List α) (i : Nat) (a : α) (h : i < l.length) :
    (l.set i a).get? i = some a := by
  simp [List.get?_set_eq_of_lt, h]

theorem batchInv_step (env : BatchEnv) (files0 : List DocFile) {s s' : BState}
    (hInv : BatchInv files0 s) (hstep : BatchStep env s s') : BatchInv files0 s' := by
  obtain ⟨h1, h2, h3, h4, h5⟩ := hInv
  cases hstep with
  | dequeue i d rest hw hq =>
      refine ⟨by rw [List.length_set]; exact h1, h2, ?_, ?_, ?_⟩
      · rintro ⟨w, hw', rfl⟩
        rcases List.mem_or_eq_of_mem_set hw' with hmem | heq
        · have h0 := h3 ⟨_, hmem, rfl⟩
          rw [hq] at h0
          exact List.noConfusion h0
        · exact WStatus.noConfusion heq
      · intro i' f0 h0 hnone
        rcases h4 i' f0 h0 hnone with hqmem | ⟨j, d', hj, hid⟩ | hdone
        · rw [hq] at hqmem
          rcases List.mem_cons.mp hqmem with rfl | hrest
          · right; left
            exact ⟨i, f0, get?_set_self _ _ _ (get?_lt_length hw), rfl⟩
          · left; exact hrest
        · right; left
          have hji : j ≠ i := by
            rintro rfl
            rw [hw] at hj
            exact WStatus.noConfusion (Option.some.inj hj)
          exact ⟨j, d', by rw [List.get?_set_ne _ _ (fun h => hji h.symm)]; exact hj, hid⟩
        · right; right; exact hdone
      · intro fid
        have h5' := h5 fid
        rw [hq] at h5'
        by_cases hd : d.id = fid <;>
          simp [List.filter_append, List.filter_cons, hd] at h5' ⊢ <;> omega
  | exit i hw hq =>
      refine ⟨by rw [List.length_set]; exact h1, h2, fun _ => hq, ?_, h5⟩
      intro i' f0 h0 hnone
      rcases h4 i' f0 h0 hnone with hqmem | ⟨j, d', hj, hid⟩ | hdone
      · rw [hq] at hqmem
        exact absurd hqmem (List.not_mem_nil f0)
      · right; left
        have hji : j ≠ i := by
          rintro rfl
          rw [hw] at hj
          exact WStatus.noConfusion (Option.some.inj hj)
        exact ⟨j, d', by rw [List.get?_set_ne _ _ (fun h => hji h.symm)]; exact hj, hid⟩
      · right; right; exact hdone
  | complete i d hw =>
      refine ⟨by rw [List.length_set]; exact h1, by rw [completeUpdate_map_id]; exact h2,
        ?_, ?_, h5⟩
      · rintro ⟨w, hw', rfl⟩
        rcases List.mem_or_eq_of_mem_set hw' with hmem | heq
        · exact h3 ⟨_, hmem, rfl⟩
        · exact WStatus.noConfusion heq
      · intro i' f0 h0 hnone
        rcases h4 i' f0 h0 hnone with hqmem | ⟨j, d', hj, hid⟩ | ⟨f, hf, hfid, hsome, hproc⟩
        · left; exact hqmem
        · by_cases hji : j = i
          · subst hji
            rw [hw] at hj
            have hdd : d' = d := by
              have := Option.some.inj hj
              cases this; rfl
            subst hdd
            right; right
            obtain ⟨f, hf, hfid⟩ := map_id_get? h2 h0
            refine ⟨processFile env.extractO env.judgeO env.rules env.now
              { d' with isProcessing := true }, ?_, ?_, ?_, ?_⟩
            · rw [completeUpdate_get?, hf]
              have : f.id = (processFile env.extractO env.judgeO env.rules env.now
                  { d' with isProcessing := true }).id := by
                rw [processFile_id]
                show f.id = d'.id
                rw [hfid, ← hid]
              simp [this]
            · rw [processFile_id]
              show d'.id = f0.id
              exact hid
            · exact processFile_verdict_isSome _ _ _ _ _
            · exact processFile_notProcessing _ _ _ _ _
          · right; left
            exact ⟨j, d', by rw [List.get?_set_ne _ _ (fun h => hji h.symm)]; exact hj, hid⟩
        · right; right
          by_cases hfp : f.id = (processFile env.extractO env.judgeO env.rules env.now
              { d with isProcessing := true }).id
          · refine ⟨processFile env.extractO env.judgeO env.rules env.now
              { d with isProcessing := true }, ?_, ?_, ?_, ?_⟩
            · rw [completeUpdate_get?, hf]
              simp [hfp]
            · rw [← hfp, hfid]
            · exact processFile_verdict_isSome _ _ _ _ _
            · exact processFile_notProcessing _ _ _ _ _
          · refine ⟨f, ?_, hfid, hsome, hproc⟩
            rw [completeUpdate_get?, hf]
            simp [hfp]

theorem batchInv_reachable (env : BatchEnv) (files0 : List DocFile) {s : BState}
    (h : BatchReachable env files0 s) : BatchInv files0 s := by
  induction h with
  | refl => exact batchInv_init files0
  | tail _ hstep ih => exact batchInv_step env files0 ih hstep

theorem terminal_queue_eq_nil (env : BatchEnv) (files0 : List DocFile) {s : BState}
    (hreach : BatchReachable env files0 s) (hterm : BatchTerminal s)
    (hne : filesToProcess files0 ≠ []) : s.queue = [] := by
  obtain ⟨h1, _, h3, _, _⟩ := batchInv_reachable env files0 hreach
  apply h3
  have hlen : 0 < s.workers.length := by
    rw [h1]
    exact Nat.lt_min.mpr ⟨List.length_pos.mpr hne, by decide⟩
  obtain ⟨w, hw⟩ := List.exists_mem_of_ne_nil _ (List.length_pos.mp hlen)
  exact ⟨w, hw, hterm w hw⟩

theorem nodup_map_filter_length {α β : Type} [DecidableEq β] (g : α → β) (l : List α)
    (hnd : (l.map g).Nodup) (x : α) (hx : x ∈ l) :
    (l.filter (fun y => g y = g x)).length = 1 := by
  induction l with
  | nil => cases hx
  | cons a t ih =>
      rw [List.map_cons, List.nodup_cons] at hnd
      obtain ⟨hna, hnt⟩ := hnd
      rcases List.mem_cons.mp hx with rfl | hxt
      · have ht0 : t.filter (fun y => g y = g x) = [] := by
          rw [List.filter_eq_nil]
          intro y hy
          simp only [decide_eq_true_eq]
          intro hgy
          exact hna (hgy ▸ List.mem_map_of_mem g hy)
        rw [List.filter_cons]
        simp [ht0]
      · have hga : ¬ (g a = g x) := by
          intro h
          exact hna (h ▸ List.mem_map_of_mem g hxt)
        rw [List.filter_cons]
        simp [hga, ih hnt hxt]

/-- Claim C1 (batch totality): for every registry `files0` and every completed
batch run (all workers returned), every document that lacked a verdict when
`runBatchAudit` started ends the run with a non-absent `auditResult` and with
`isProcessing = false`, and the registry keeps exactly the starting documents
by position and id — no document in the starting unprocessed snapshot is
dropped. -/
theorem runBatchAudit_totality (env : BatchEnv) (files0 : List DocFile) (s : BState)
    (hreach : BatchReachable env files0 s) (hterm : BatchTerminal s) :
    s.files.map DocFile.id = files0.map DocFile.id ∧
    ∀ i f0, files0.get? i = some f0 → f0.auditResult = none →
      ∃ f, s.files.get? i = some f ∧ f.id = f0.id ∧
        f.auditResult.isSome = true ∧ f.isProcessing = false := by
  obtain ⟨h1, h2, h3, h4, h5⟩ := batchInv_reachable env files0 hreach
  refine ⟨h2, ?_⟩
  intro i f0 h0 hnone
  have hmem : f0 ∈ filesToProcess files0 := by
    unfold filesToProcess
    rw [List.mem_filter]
    exact ⟨List.get?_mem h0, by rw [hnone]; rfl⟩
  have hne : filesToProcess files0 ≠ [] := by
    intro h
    rw [h] at hmem
    exact List.not_mem_nil f0 hmem
  have hq : s.queue = [] := terminal_queue_eq_nil env files0 hreach hterm hne
  rcases h4 i f0 h0 hnone with hqmem | ⟨j, d, hj, _⟩ | h
  · rw [hq] at hqmem
    exact absurd hqmem (List.not_mem_nil f0)
  · have hbusy := hterm _ (List.get?_mem hj)
    exact WStatus.noConfusion hbusy
  · exact h

/-- Claim C2 (concurrency cap): in every reachable state of a batch run over a
registry with distinct document ids, the worker pool has exactly
`min(N, CONCURRENT_LIMIT)` workers (`N` the size of the unprocessed snapshot),
at most `CONCURRENT_LIMIT` dequeued documents are in flight (busy workers) at
any instant, and when the run completes every unprocessed document has been
dequeued exactly once — by exactly one worker. -/
theorem runBatchAudit_concurrency_cap (env : BatchEnv) (files0 : List DocFile) (s : BState)
    (hids : (files0.map DocFile.id).Nodup) (hreach : BatchReachable env files0 s) :
    s.workers.length = min (filesToProcess files0).length CONCURRENT_LIMIT ∧
    (s.workers.filter WStatus.isBusy).length ≤ CONCURRENT_LIMIT ∧
    (BatchTerminal s → ∀ f0 ∈ filesToProcess files0,
      (s.log.filter (fun e => e.2.id = f0.id)).length = 1) := by
  obtain ⟨h1, h2, h3, h4, h5⟩ := batchInv_reachable env files0 hreach
  refine ⟨h1, ?_, ?_⟩
  · calc (s.workers.filter WStatus.isBusy).length
        ≤ s.workers.length := List.length_filter_le _ _
      _ = min (filesToProcess files0).length CONCURRENT_LIMIT := h1
      _ ≤ CONCURRENT_LIMIT := Nat.min_le_right _ _
  · intro hterm f0 hf0
    have hne : filesToProcess files0 ≠ [] := by
      intro h
      rw [h] at hf0
      exact List.not_mem_nil f0 hf0
    have hq := terminal_queue_eq_nil env files0 hreach hterm hne
    have h5' := h5 f0.id
    rw [hq] at h5'
    simp only [List.filter_nil, List.length_nil, Nat.add_zero] at h5'
    rw [h5']
    have hnd : ((filesToProcess files0).map DocFile.id).Nodup :=
      List.Sublist.nodup (List.Sublist.map DocFile.id (List.filter_sublist files0)) hids
    exact nodup_map_filter_length DocFile.id (filesToProcess files0) hnd f0 hf0

/-! ## A concrete one-document batch run (witness data) -/

def wVerdict : AuditResult :=
  { status := AuditStatus.PASS, summary := "ok", issues := [], processedAt := "t0" }

def wFile : DocFile :=
  { id := "f1", name := "a.docx", content := "", auditResult := none, isProcessing := false }

def wEnv : BatchEnv :=
  { extractO := fun _ => Except.ok "<p>x</p>"
    judgeO := fun _ _ => FetchOutcome.ok wVerdict
    rules := []
    now := "t0" }

def wProcessed : DocFile :=
  processFile wEnv.extractO wEnv.judgeO wEnv.rules wEnv.now { wFile with isProcessing := true }

def wFinal : BState :=
  { queue := [], files := [wProcessed], workers := [WStatus.done], log := [(0, wFile)] }

theorem wTerminal : BatchTerminal wFinal := by
  intro w hw
  exact List.eq_of_mem_singleton hw

theorem wReach : BatchReachable wEnv [wFile] wFinal := by
  apply Relation.ReflTransGen.head
    (BatchStep.dequeue (initState [wFile]) 0 wFile [] (by decide) (by decide))
  apply Relation.ReflTransGen.head (BatchStep.complete _ 0 wFile (by decide))
  apply Relation.ReflTransGen.head (BatchStep.exit _ 0 (by decide) (by decide))
  exact Relation.ReflTransGen.refl

/-- Witness for claim C1: a concrete completed one-document batch run in
which the initially-unprocessed document ends with a present verdict,
`isProcessing = false`, and the registry ids unchanged. -/
theorem runBatchAudit_totality_witness :
    wFinal.files.map DocFile.id = ["f1"] ∧
    (wFinal.files.get? 0).map (fun f => f.auditResult.isSome && !f.isProcessing)
      = some true := by
  obtain ⟨h1, h2⟩ := runBatchAudit_totality wEnv [wFile] wFinal wReach wTerminal
  refine ⟨h1, ?_⟩
  obtain ⟨f, hf, _, hsome, hproc⟩ := h2 0 wFile rfl rfl
  rw [hf]
  simp [hsome, hproc]

/-- Witness for claim C2: in the same concrete run, the worker pool size is
`min(1, 3) = 1` throughout, and at completion the document was dequeued
exactly once. -/
theorem runBatchAudit_concurrency_cap_witness :
    wFinal.workers.length = min (filesToProcess [wFile]).length CONCURRENT_LIMIT ∧
    (wFinal.log.filter (fun e => e.2.id = wFile.id)).length = 1 := by
  obtain ⟨h1, _, h3⟩ := runBatchAudit_concurrency_cap wEnv [wFile] wFinal (by decide) wReach
  exact ⟨h1, h3 wTerminal wFile (by decide)⟩

/-! ## Claim C3: synthesized failure verdicts -/

def c3Doc : DocFile :=
  { id := "d1", name := "b.docx", content := "", auditResult := none, isProcessing := true }

/-- Counterexample to claim C3 as stated: for a document whose EXTRACTION
fails, the verdict synthesized by `processFile`'s catch branch has status
`ERROR` but an EMPTY `issues` list — not the claimed single
`special_rules`/`high` entry.  (Only judgment-call failures, handled inside
`analyzeReport`, produce the single-issue shape.) -/
theorem processFile_extraction_failure_counterexample :
    (processFile (fun _ => Except.error ()) (fun _ _ => FetchOutcome.ok wVerdict)
        [] "t1" c3Doc).auditResult
      = some { status := AuditStatus.ERROR, summary := "文件处理失败。",
               issues := [], processedAt := "t1" } ∧
    ((processFile (fun _ => Except.error ()) (fun _ _ => FetchOutcome.ok wVerdict)
        [] "t1" c3Doc).auditResult.map (fun v => v.issues.length)) ≠ some 1 := by
  exact ⟨rfl, by decide⟩

/-- Claim C3 (corrected): a judgment call that fails (non-2xx, timeout, or
any other thrown error) yields via `analyzeReport` a verdict with status
`ERROR` and exactly one issue of category `special_rules` and severity
`high`; a document whose extraction fails gets, via `processFile`'s catch
branch, a verdict with status `ERROR` and an empty issues list.  In both
cases a verdict is produced rather than an exception propagated, so the
failure cannot abort the batch. -/
theorem failure_verdict_shape (now : String) (o : FetchOutcome)
    (ho : ∀ r, o ≠ FetchOutcome.ok r)
    (eO : DocFile → Except Unit String) (jO : String → List String → FetchOutcome)
    (rules : List RuleConfig) (d : DocFile)
    (hd : d.content = "") (he : eO d = Except.error ()) :
    ((analyzeReport now o).status = AuditStatus.ERROR ∧
     (analyzeReport now o).issues.length = 1 ∧
     ∀ i ∈ (analyzeReport now o).issues,
       i.category = RuleCategory.special_rules ∧ i.severity = Severity.high) ∧
    (processFile eO jO rules now d).auditResult
      = some { status := AuditStatus.ERROR, summary := "文件处理失败。",
               issues := [], processedAt := now } := by
  constructor
  · cases o with
    | ok r => exact absurd rfl (ho r)
    | httpError code =>
        refine ⟨rfl, rfl, ?_⟩
        intro i hi
        simp [analyzeReport, analyzeReportFailure] at hi
        rw [hi]
        exact ⟨rfl, rfl⟩
    | abortError =>
        refine ⟨rfl, rfl, ?_⟩
        intro i hi
        simp [analyzeReport, analyzeReportFailure] at hi
        rw [hi]
        exact ⟨rfl, rfl⟩
    | otherError msg =>
        by_cases hm : msg = "" <;>
          · refine ⟨by simp [analyzeReport, analyzeReportFailure, hm], ?_, ?_⟩
            · simp [analyzeReport, analyzeReportFailure, hm]
            · intro i hi
              simp [analyzeReport, analyzeReportFailure, hm] at hi
              rw [hi]
              exact ⟨rfl, rfl⟩
  · unfold processFile
    rw [if_pos hd, he]

/-- Witness for the corrected claim C3, at a timed-out judgment call and a
failing extraction on a concrete document. -/
theorem failure_verdict_shape_witness :
    (analyzeReport "t1" FetchOutcome.abortError).status = AuditStatus.ERROR ∧
    (analyzeReport "t1" FetchOutcome.abortError).issues.length = 1 ∧
    (processFile (fun _ => Except.error ()) (fun _ _ => FetchOutcome.abortError)
        [] "t1" c3Doc).auditResult
      = some { status := AuditStatus.ERROR, summary := "文件处理失败。",
               issues := [], processedAt := "t1" } := by
  obtain ⟨⟨h1, h2, _⟩, h4⟩ := failure_verdict_shape "t1" FetchOutcome.abortError
    (by intro r h; exact FetchOutcome.noConfusion h)
    (fun _ => Except.error ()) (fun _ _ => FetchOutcome.abortError) [] c3Doc rfl rfl
  exact ⟨h1, h2, h4⟩

/-! ## Claim C4: the serverless judgment handler (src/api/analyze-report.ts) -/

/-- What the POST path of the handler observes from the upstream AI call:
either a successfully parsed JSON object (its `overallStatus` string, an
optional `summary`, an optional `issues` array), or any thrown error with its
message (missing API key, non-2xx upstream response, missing or malformed
content — all reach the single `catch`). -/
inductive UpstreamOutcome where
  | parsed : String → Option String → Option (List AuditIssue) → UpstreamOutcome
  | failure : String → UpstreamOutcome
deriving DecidableEq, Repr

/-- Embedding of the response body built by `handler` in
`src/api/analyze-report.ts`: on success (lines 119-124),
`status = overallStatus === 'FAIL' ? 'FAIL' : (overallStatus === 'WARNING' ? 'WARNING' : 'PASS')`
with falsy-defaulted summary and issues; on any caught error, the 500 body
with `status = 'ERROR'` and a single synthesized issue. -/
def handler (now : String) : UpstreamOutcome → AuditResult
  | UpstreamOutcome.parsed overallStatus summary issues =>
      { status := if overallStatus = "FAIL" then AuditStatus.FAIL
                  else if overallStatus = "WARNING" then AuditStatus.WARNING
                  else AuditStatus.PASS
        summary := match summary with
                   | some s => if s = "" then "未生成审核总结" else s
                   | none => "未生成审核总结"
        issues := issues.getD []
        processedAt := now }
  | UpstreamOutcome.failure msg =>
      { status := AuditStatus.ERROR
        summary := "审核失败：" ++ (if msg = "" then "未知错误" else msg)
        issues := [{ rule := "AI审核服务异常"
                     description := if msg = "" then "请检查阿里云API Key是否正确，或阿里云账号是否开通通义千问服务" else msg
                     severity := Severity.high
                     location := ""
                     category := RuleCategory.special_rules }]
        processedAt := now }

/-- Counterexample to claim C4 as stated: an unrecognized `overallStatus`
(`"UNKNOWN"`, none of the four enum values) is coerced by the handler to
`PASS` — the LEAST conservative treatment, not a conservative non-PASS
one. -/
theorem handler_unrecognized_status_counterexample :
    (handler "t2" (UpstreamOutcome.parsed "UNKNOWN" (some "s") (some []))).status
      = AuditStatus.PASS ∧
    ("UNKNOWN" : String) ≠ "PASS" ∧ ("UNKNOWN" : String) ≠ "FAIL" ∧
    ("UNKNOWN" : String) ≠ "WARNING" ∧ ("UNKNOWN" : String) ≠ "ERROR" :=
  ⟨rfl, by decide, by decide, by decide, by decide⟩

/-- Claim C4 (corrected): every response produced by the handler's POST path
carries a `status` among the four enum values `PASS`/`FAIL`/`WARNING`/`ERROR`,
but an unrecognized upstream `overallStatus` is coerced to `PASS` (the
fall-through of the nested conditional), not to a conservative non-PASS
value. -/
theorem handler_status_coercion (now : String) (o : UpstreamOutcome) :
    ((handler now o).status = AuditStatus.PASS ∨ (handler now o).status = AuditStatus.FAIL ∨
     (handler now o).status = AuditStatus.WARNING ∨ (handler now o).status = AuditStatus.ERROR) ∧
    (∀ os sm is, o = UpstreamOutcome.parsed os sm is →
       os ≠ "FAIL" → os ≠ "WARNING" → (handler now o).status = AuditStatus.PASS) := by
  constructor
  · cases o with
    | parsed os sm is =>
        by_cases h1 : os = "FAIL"
        · right; left; simp [handler, h1]
        · by_cases h2 : os = "WARNING"
          · right; right; left; simp [handler, h1, h2]
          · left; simp [handler, h1, h2]
    | failure msg => right; right; right; rfl
  · rintro os sm is rfl h1 h2
    simp [handler, h1, h2]

/-- Witness for the corrected claim C4 at a concrete unrecognized status. -/
theorem handler_status_coercion_witness :
    (handler "t2" (UpstreamOutcome.parsed "BAD" none none)).status = AuditStatus.PASS :=
  (handler_status_coercion "t2" (UpstreamOutcome.parsed "BAD" none none)).2
    "BAD" none none rfl (by decide) (by decide)

/-! ## Claim C5: active rule texts -/

/-- Modelled from the spec's words for `activeTexts()`: the `text` of all
rules with `enabled = true`, kept in insertion order, disabled rules
excluded.  Used as the specification side of the refinement for C5. -/
def specActiveTexts : List RuleConfig → List String
  | [] => []
  | r :: rs => if r.enabled then r.text :: specActiveTexts rs else specActiveTexts rs

/-- Claim C5: the rule texts passed to the judgment client
(`rules.filter(r => r.enabled).map(r => r.text)`) are exactly the texts of
the enabled rules in insertion order, disabled rules excluded; in
particular `[A(enabled), B(disabled), C(enabled)]` yields `[A, C]`. -/
theorem activeRuleTexts_spec :
    (∀ rules : List RuleConfig, activeRuleTexts rules = specActiveTexts rules) ∧
    activeRuleTexts
      [{ id := "1", text := "A", enabled := true, category := RuleCategory.text_editing },
       { id := "2", text := "B", enabled := false, category := RuleCategory.text_editing },
       { id := "3", text := "C", enabled := true, category := RuleCategory.text_editing }]
      = ["A", "C"] := by
  constructor
  · intro rules
    induction rules with
    | nil => rfl
    | cons r rs ih =>
        by_cases h : r.enabled = true <;>
          simp [activeRuleTexts, specActiveTexts, List.filter_cons, h] <;>
          simpa [activeRuleTexts] using ih
  · rfl

/-! ## Claim C6: completion write-back frame -/

/-- Claim C6: the completion write-back
`prev.map(f => f.id === processed.id ? processed : f)` is a per-id frame
update: every document whose id differs from the completed one keeps its
exact entry (same position, same value), and when no document with the
completed id exists — e.g. the user removed it mid-flight — the list is left
entirely unchanged (safe no-op). -/
theorem completeUpdate_frame (files : List DocFile) (processed : DocFile) :
    (∀ i f, files.get? i = some f → f.id ≠ processed.id →
       (completeUpdate files processed).get? i = some f) ∧
    ((∀ f ∈ files, f.id ≠ processed.id) → completeUpdate files processed = files) := by
  constructor
  · intro i f hf hne
    rw [completeUpdate_get?, hf]
    simp [hne]
  · intro hall
    unfold completeUpdate
    have h : files.map (fun f => if f.id = processed.id then processed else f)
        = files.map id := by
      apply List.map_congr_left
      intro f hf
      simp [hall f hf]
    rw [h, List.map_id]

def c6A : DocFile :=
  { id := "a", name := "a.docx", content := "x", auditResult := none, isProcessing := true }

def c6B : DocFile :=
  { id := "b", name := "b.docx", content := "", auditResult := none, isProcessing := true }

def c6P : DocFile :=
  { id := "removed", name := "gone.docx", content := "y",
    auditResult := some wVerdict, isProcessing := false }

/-- Witness for claim C6: completing a document whose id is no longer in the
registry leaves the registry unchanged, and untouched entries survive in
place. -/
theorem completeUpdate_frame_witness :
    completeUpdate [c6A, c6B] c6P = [c6A, c6B] ∧
    (completeUpdate [c6A, c6B] c6P).get? 0 = some c6A := by
  have h := completeUpdate_frame [c6A, c6B] c6P
  refine ⟨h.2 ?_, h.1 0 c6A rfl (by decide)⟩
  intro f hf
  rcases List.mem_cons.mp hf with rfl | hf2
  · decide
  · rcases List.mem_cons.mp hf2 with rfl | hf3
    · decide
    · exact absurd hf3 (List.not_mem_nil f)

/-! ## Claim C7: extraction memoization -/

/-- Claim C7 (extraction memoization): for a document whose `content` is
already populated (non-empty), `processFile` never consults the extractor —
its result is identical for EVERY extraction oracle — and the resulting
document keeps the same `content`. -/
theorem processFile_memoized (eO eO' : DocFile → Except Unit String)
    (jO : String → List String → FetchOutcome) (rules : List RuleConfig)
    (now : String) (d : DocFile) (h : d.content ≠ "") :
    processFile eO jO rules now d = processFile eO' jO rules now d ∧
    (processFile eO jO rules now d).content = d.content := by
  unfold processFile
  rw [if_neg h, if_neg h]
  exact ⟨rfl, rfl⟩

def c7Doc : DocFile :=
  { id := "m1", name := "m.docx", content := "<p>cached</p>",
    auditResult := none, isProcessing := true }

/-- Witness for claim C7: on a document with populated content, running
`processFile` with an extractor that would FAIL gives the same result as
with any other extractor, and the cached content is kept. -/
theorem processFile_memoized_witness :
    processFile (fun _ => Except.error ()) (fun _ _ => FetchOutcome.ok wVerdict)
        [] "t3" c7Doc
      = processFile (fun _ => Except.ok "other") (fun _ _ => FetchOutcome.ok wVerdict)
        [] "t3" c7Doc ∧
    (processFile (fun _ => Except.error ()) (fun _ _ => FetchOutcome.ok wVerdict)
        [] "t3" c7Doc).content = "<p>cached</p>" := by
  have h := processFile_memoized (fun _ => Except.error ()) (fun _ => Except.ok "other")
    (fun _ _ => FetchOutcome.ok wVerdict) [] "t3" c7Doc (by decide)
  exact ⟨h.1, h.2⟩

/-! ## Claim C8: upload batches and name collisions
(src/components/Dashboard.tsx, `processNewFiles`) -/

/-- The new `DocFile` object built for one uploaded file (Dashboard.tsx
lines 82-88).  An uploaded file is a pair `(name, freshly generated random
id)`; the id generator `Math.random().toString(36).substring(7)` is an
oracle, so the id travels with the input. -/
def mkDocFile (f : String × String) : DocFile :=
  { id := f.2, name := f.1, content := "", auditResult := none, isProcessing := false }

/-- The `fileList.forEach` loop of `processNewFiles`: for each incoming
file, look up a same-named document in the CLOSURE value of `files` (the
registry as of render time), ask `confirm` on a hit and either skip the file
or record a `removeFile` call for the old id; every kept file is appended to
`newDocFiles`.  Returns `(newDocFiles, removed ids)` in encounter order. -/
def buildNewDocFiles (prev : List DocFile) (confirm : String → Bool) :
    List (String × String) → List DocFile × List String
  | [] => ([], [])
  | f :: rest =>
      match prev.find? (fun p => p.name = f.1) with
      | some existing =>
          if confirm f.1 then
            let r := buildNewDocFiles prev confirm rest
            (mkDocFile f :: r.1, existing.id :: r.2)
          else buildNewDocFiles prev confirm rest
      | none =>
          let r := buildNewDocFiles prev confirm rest
          (mkDocFile f :: r.1, r.2)

/-- Embedding of `processNewFiles` (Dashboard.tsx lines 67-99).  The queued
`removeFile` functional updates run first (each filters one id out); then, if
any new files were kept, the final functional update drops every previous
document whose name is in `namesToRemove` (the names of the NEW files) and
appends the new ones. -/
def processNewFiles (prev : List DocFile) (confirm : String → Bool)
    (fileList : List (String × String)) : List DocFile :=
  let r := buildNewDocFiles prev confirm fileList
  if r.1.isEmpty then prev
  else
    let afterRemovals := prev.filter (fun f => ¬ (r.2.contains f.id))
    let namesToRemove := r.1.map DocFile.name
    afterRemovals.filter (fun f => ¬ (namesToRemove.contains f.name)) ++ r.1

/-- Counterexample to claim C8 as stated: two files with the SAME name
dropped in one batch onto an empty registry are both inserted — the
collision check only consults the pre-existing registry, so the resulting
registry holds two documents named `a.docx`. -/
theorem processNewFiles_duplicate_names_counterexample :
    (processNewFiles [] (fun _ => true) [("a.docx", "id1"), ("a.docx", "id2")]).map
        DocFile.name
      = ["a.docx", "a.docx"] ∧
    ¬ ((processNewFiles [] (fun _ => true)
        [("a.docx", "id1"), ("a.docx", "id2")]).map DocFile.name).Nodup := by
  exact ⟨rfl, by decide⟩

theorem buildNewDocFiles_cons (prev : List DocFile) (confirm : String → Bool)
    (f : String × String) (rest : List (String × String)) :
    buildNewDocFiles prev confirm (f :: rest)
      = match prev.find? (fun p => p.name = f.1) with
        | some existing =>
            if confirm f.1 then
              (mkDocFile f :: (buildNewDocFiles prev confirm rest).1,
               existing.id :: (buildNewDocFiles prev confirm rest).2)
            else buildNewDocFiles prev confirm rest
        | none =>
            (mkDocFile f :: (buildNewDocFiles prev confirm rest).1,
             (buildNewDocFiles prev confirm rest).2) := rfl

theorem buildNewDocFiles_names_sublist (prev : List DocFile) (confirm : String → Bool)
    (fileList : List (String × String)) :
    List.Sublist ((buildNewDocFiles prev confirm fileList).1.map DocFile.name)
      (fileList.map Prod.fst) := by
  induction fileList with
  | nil => exact List.Sublist.refl _
  | cons f rest ih =>
      cases hfind : prev.find? (fun p => p.name = f.1) with
      | some existing =>
          cases h : confirm f.1
          · have he : buildNewDocFiles prev confirm (f :: rest)
                = buildNewDocFiles prev confirm rest := by
              rw [buildNewDocFiles_cons, hfind]
              simp [h]
            rw [he]
            exact List.Sublist.cons f.1 ih
          · have he : buildNewDocFiles prev confirm (f :: rest)
                = (mkDocFile f :: (buildNewDocFiles prev confirm rest).1,
                   existing.id :: (buildNewDocFiles prev confirm rest).2) := by
              rw [buildNewDocFiles_cons, hfind]
              simp [h]
            rw [he]
            exact List.Sublist.cons₂ f.1 ih
      | none =>
          have he : buildNewDocFiles prev confirm (f :: rest)
              = (mkDocFile f :: (buildNewDocFiles prev confirm rest).1,
                 (buildNewDocFiles prev confirm rest).2) := by
            rw [buildNewDocFiles_cons, hfind]
          rw [he]
          exact List.Sublist.cons₂ f.1 ih

/-- Claim C8 (corrected): name deduplication in `processNewFiles` happens
only against the PRE-EXISTING registry — same-named old documents are
replaced by the incoming batch — not within the batch itself.  Hence: if the
incoming batch's names are pairwise distinct and the registry's names were
pairwise distinct, the resulting registry's names are pairwise distinct, and
every resulting document is either one of the new documents or an old
document whose name collides with no inserted one; but a batch that itself
contains duplicate names inserts them all (see the counterexample). -/
theorem processNewFiles_name_dedup (prev : List DocFile) (confirm : String → Bool)
    (fileList : List (String × String))
    (hprev : (prev.map DocFile.name).Nodup)
    (hbatch : (fileList.map Prod.fst).Nodup) :
    ((processNewFiles prev confirm fileList).map DocFile.name).Nodup ∧
    ∀ f ∈ processNewFiles prev confirm fileList,
      f ∈ (buildNewDocFiles prev confirm fileList).1 ∨
      (f ∈ prev ∧ ∀ g ∈ (buildNewDocFiles prev confirm fileList).1, g.name ≠ f.name) := by
  unfold processNewFiles
  by_cases hne : (buildNewDocFiles prev confirm fileList).1.isEmpty = true
  · rw [if_pos hne]
    refine ⟨hprev, ?_⟩
    intro f hf
    right
    refine ⟨hf, ?_⟩
    intro g hg
    rw [List.isEmpty_iff] at hne
    rw [hne] at hg
    exact absurd hg (List.not_mem_nil g)
  · rw [if_neg hne]
    have hLsub : List.Sublist
        (((prev.filter (fun f => ¬ ((buildNewDocFiles prev confirm fileList).2.contains f.id))).filter
          (fun f => ¬ (((buildNewDocFiles prev confirm fileList).1.map DocFile.name).contains f.name)))) prev :=
      List.Sublist.trans (List.filter_sublist _) (List.filter_sublist _)
    constructor
    · rw [List.map_append, List.nodup_append]
      refine ⟨List.Sublist.nodup (List.Sublist.map DocFile.name hLsub) hprev,
        List.Sublist.nodup (buildNewDocFiles_names_sublist prev confirm fileList) hbatch, ?_⟩
      intro x hxL hxR
      obtain ⟨f, hfL, rfl⟩ := List.mem_map.mp hxL
      have := (List.mem_filter.mp hfL).2
      simp only [decide_eq_true_eq, List.contains_eq_any_beq] at this
      rw [List.mem_map] at hxR
      obtain ⟨g, hg, hgname⟩ := hxR
      apply this
      rw [List.any_eq_true]
      refine ⟨g.name, List.mem_map_of_mem DocFile.name hg, ?_⟩
      rw [hgname]
      exact beq_self_eq_true _
    · intro f hf
      rcases List.mem_append.mp hf with hfL | hfR
      · right
        refine ⟨List.Sublist.mem (List.mem_filter.mp hfL).1 (List.filter_sublist _), ?_⟩
        intro g hg hgname
        have := (List.mem_filter.mp hfL).2
        simp only [decide_eq_true_eq, List.contains_eq_any_beq] at this
        apply this
        rw [List.any_eq_true]
        refine ⟨g.name, List.mem_map_of_mem DocFile.name hg, ?_⟩
        rw [hgname]
        exact beq_self_eq_true _
      · left; exact hfR

/-- Witness for the corrected claim C8: a batch with distinct names, one of
which collides with the registry, replaces the old entry and keeps the
resulting names duplicate-free. -/
theorem processNewFiles_name_dedup_witness :
    ((processNewFiles
        [{ id := "old1", name := "a.docx", content := "x",
           auditResult := none, isProcessing := false }]
        (fun _ => true) [("a.docx", "n1"), ("b.docx", "n2")]).map DocFile.name).Nodup :=
  (processNewFiles_name_dedup
    [{ id := "old1", name := "a.docx", content := "x",
       auditResult := none, isProcessing := false }]
    (fun _ => true) [("a.docx", "n1"), ("b.docx", "n2")]
    (by decide) (by decide)).1

/-! ## Claim C9: rule import validation (src/services/ruleImporter.ts) -/

/-- Embedding of JavaScript's `String.prototype.trim()`: drop leading and
trailing whitespace characters.  (Defined structurally over the character
list so that concrete imports evaluate inside proofs.) -/
def jsTrim (s : String) : String :=
  String.mk (((s.data.dropWhile Char.isWhitespace).reverse.dropWhile
    Char.isWhitespace).reverse)

/-- Embedding of `CATEGORY_REVERSE_MAP` of `src/services/ruleImporter.ts`. -/
def CATEGORY_REVERSE_MAP (s : String) : Option RuleCategory :=
  if s = "文本编辑" then some RuleCategory.text_editing
  else if s = "流转逻辑" then some RuleCategory.workflow_logic
  else if s = "结果判定" then some RuleCategory.result_determination
  else if s = "特殊规则" then some RuleCategory.special_rules
  else none

/-- The data-row loop of `parseRulesFile` (ruleImporter.ts lines 88-106):
rows with fewer than two cells are skipped; cells are trimmed; rows with an
empty (falsy) type or content cell are skipped; otherwise the Chinese label
maps to a category with catch-all `special_rules`.  `mkId i` stands for the
generated id `` `import-${Date.now()}-${i}` ``. -/
def parseRows (mkId : Nat → String) : Nat → List (List String) → List RuleConfig
  | _, [] => []
  | i, row :: rest =>
      if row.length < 2 then parseRows mkId (i + 1) rest
      else
        let typeCN := jsTrim ((row.get? 0).getD "")
        let text := jsTrim ((row.get? 1).getD "")
        if typeCN ≠ "" ∧ text ≠ "" then
          { id := mkId i, text := text, enabled := true,
            category := (CATEGORY_REVERSE_MAP typeCN).getD RuleCategory.special_rules }
            :: parseRows mkId (i + 1) rest
        else parseRows mkId (i + 1) rest

/-- Embedding of `parseRulesFile` of `src/services/ruleImporter.ts` on the
sheet already converted to a row-of-cells table (`sheet_to_json` with
`header: 1`); a missing cell is an absent `get?`.  Fewer than 2 rows, a
header row whose first two trimmed cells are not `规则类型`/`规则内容`, or an
empty parsed rule list each reject with the source's error message. -/
def parseRulesFile (mkId : Nat → String) (jsonData : List (List String)) :
    Except String (List RuleConfig) :=
  if jsonData.length < 2 then Except.error ("文件内容为空或格式不正确。")
  else
    let headers := jsonData.headD []
    if ((headers.get? 0).map jsTrim = some ("规则类型")
        ∧ (headers.get? 1).map jsTrim = some ("规则内容")) then
      let newRules := parseRows mkId 1 (jsonData.drop 1)
      if newRules.isEmpty then Except.error ("未在文件中找到有效的规则数据。")
      else Except.ok newRules
    else Except.error ("表格格式错误。首行必须包含“规则类型”和“规则内容”两列。")

/-- Embedding of `handleRuleImport` of `src/components/Dashboard.tsx` (lines
184-195): on success the imported rules are appended to the registry; on a
rejected parse the registry is untouched (the error is only alerted). -/
def handleRuleImport (rules : List RuleConfig) :
    Except String (List RuleConfig) → List RuleConfig
  | Except.error _ => rules
  | Except.ok imported => rules ++ imported

/-- Claim C9: an imported rule table with fewer than 2 total rows is
rejected with a validation error; a table whose header's first two trimmed
cells are not `规则类型` and `规则内容` is rejected with a validation error;
and any rejected import leaves the rule registry entirely unchanged — zero
rules added, no partial import. -/
theorem parseRulesFile_rejection (mkId : Nat → String) (jsonData : List (List String))
    (rules : List RuleConfig) :
    (jsonData.length < 2 →
       parseRulesFile mkId jsonData = Except.error ("文件内容为空或格式不正确。")) ∧
    (¬ jsonData.length < 2 →
       ∀ headers rest, jsonData = headers :: rest →
       ¬ ((headers.get? 0).map jsTrim = some ("规则类型")
          ∧ (headers.get? 1).map jsTrim = some ("规则内容")) →
       parseRulesFile mkId jsonData
         = Except.error ("表格格式错误。首行必须包含“规则类型”和“规则内容”两列。")) ∧
    (∀ e, handleRuleImport rules (Except.error e) = rules) := by
  refine ⟨?_, ?_, fun e => rfl⟩
  · intro h
    unfold parseRulesFile
    rw [if_pos h]
  · rintro h headers rest rfl hbad
    unfold parseRulesFile
    rw [if_neg h]
    simp only [List.headD_cons]
    rw [if_neg hbad]

/-- Witness for claim C9: the spec's example header `["type","content"]` is
rejected with the header validation error and adds zero rules. -/
theorem parseRulesFile_rejection_witness :
    parseRulesFile (fun _ => "rid") [["type", "content"], ["a", "b"]]
      = Except.error ("表格格式错误。首行必须包含“规则类型”和“规则内容”两列。") ∧
    handleRuleImport [] (Except.error ("x")) = [] := by
  have h := parseRulesFile_rejection (fun _ => "rid") [["type", "content"], ["a", "b"]] []
  exact ⟨h.2.1 (by decide) ["type", "content"] [["a", "b"]] rfl (by decide), h.2.2 ("x")⟩

/-! ## Claim C10: CSV export (src/components/Dashboard.tsx, `exportToCSV`) -/

/-- Embedding of JavaScript's `String.prototype.includes` for the
single-character needles used by `escape`. -/
def strIncludes (s : String) (c : Char) : Bool := s.data.contains c

/-- The quoting condition of `escape` (Dashboard.tsx line 282):
`includes(",") || includes('"') || includes("\n")`. -/
def needsEscape (s : String) : Bool :=
  strIncludes s ',' || strIncludes s '"' || strIncludes s '\n'

/-- Embedding of `stringText.replace(/"/g, '""')`: every `"` becomes `""`. -/
def escapeQuotes (s : String) : String :=
  String.mk (s.data.flatMap (fun c => if c = '"' then ['"', '"'] else [c]))

/-- Embedding of the `escape` helper of `exportToCSV` (Dashboard.tsx lines
279-286): a falsy (empty) value becomes `""`; a value containing the
delimiter, quote, or newline is wrapped in quotes with embedded quotes
doubled; anything else is emitted verbatim. -/
def escape (s : String) : String :=
  if s = "" then ""
  else if needsEscape s then "\"" ++ escapeQuotes s ++ "\"" else s

/-- Embedding of the status label of `exportToCSV` (line 288): Chinese
labels for `PASS`/`FAIL`/`WARNING`, the raw enum string otherwise. -/
def statusLabel (s : AuditStatus) : String :=
  if s = AuditStatus.PASS then "通过"
  else if s = AuditStatus.FAIL then "不通过"
  else if s = AuditStatus.WARNING then "警告"
  else s.str

/-- Embedding of the severity label (line 296). -/
def severityLabel (s : Severity) : String :=
  if s = Severity.high then "高" else if s = Severity.medium then "中" else "低"

/-- Embedding of `CATEGORY_MAP[issue.category]?.label || issue.category`
(line 295); `CATEGORY_MAP` is total on the four categories. -/
def categoryLabel : RuleCategory → String
  | RuleCategory.text_editing => "文本编辑"
  | RuleCategory.workflow_logic => "流转逻辑"
  | RuleCategory.result_determination => "结果判定"
  | RuleCategory.special_rules => "特殊规则"

/-- The CSV header row of `exportToCSV` (line 276, after the BOM). -/
def csvHeaderRow : String := "文件名,审批状态,执行摘要,错误分类,规则名称,详细描述,严重程度,位置"

/-- `commonData` of `exportToCSV` (line 289): the three leading fields. -/
def commonData (name : String) (v : AuditResult) : String :=
  escape name ++ "," ++ escape (statusLabel v.status) ++ "," ++ escape v.summary

/-- One issue row of `exportToCSV` (line 297). -/
def issueRow (name : String) (v : AuditResult) (i : AuditIssue) : String :=
  commonData name v ++ "," ++ escape (categoryLabel i.category) ++ "," ++ escape i.rule
    ++ "," ++ escape i.description ++ "," ++ escape (severityLabel i.severity)
    ++ "," ++ escape i.location

/-- The data rows of `exportToCSV` (lines 291-300): one placeholder row with
five empty trailing fields when there are no issues, else one row per
issue. -/
def csvRows (name : String) (v : AuditResult) : List String :=
  if v.issues.isEmpty then [commonData name v ++ ",,,,,"]
  else v.issues.map (issueRow name v)

/-- The full CSV text of `exportToCSV`: BOM, header row, data rows, each
newline-terminated. -/
def exportToCSV (name : String) (v : AuditResult) : String :=
  "\uFEFF" ++ csvHeaderRow ++ "\n" ++ String.join ((csvRows name v).map (fun r => r ++ "\n"))

/-- Number of quote characters in a string. -/
def countQuotes (s : String) : Nat := s.data.count '"'

theorem count_doubleQuotes (l : List Char) :
    (l.flatMap (fun c => if c = '"' then ['"', '"'] else [c])).count '"' = 2 * l.count '"' := by
  induction l with
  | nil => rfl
  | cons c t ih =>
      show (((fun c => if c = '"' then ['"', '"'] else [c]) c)
          ++ t.flatMap (fun c => if c = '"' then ['"', '"'] else [c])).count '"' = _
      by_cases h : c = '"' <;> simp [h, List.count_cons, List.count_append, ih] <;> omega

theorem needsEscape_empty_false (s : String) (h : s = "") : needsEscape s = false := by
  rw [h]
  rfl

/-- Claim C10: an exported CSV field is wrapped in quotes with embedded
quotes doubled exactly when the value contains a comma, a quote, or a
newline (the quote count of the emitted field is `2·k + 2` for `k` embedded
quotes), and is emitted verbatim otherwise; the example summary
`He said, "ok"` is emitted as `"He said, ""ok"""`; and the data table has
one row per issue, or one placeholder row when the verdict has no issues. -/
theorem exportToCSV_escaping :
    (∀ s : String,
       (needsEscape s = true →
          escape s = "\"" ++ escapeQuotes s ++ "\"" ∧
          countQuotes (escape s) = 2 * countQuotes s + 2) ∧
       (needsEscape s = false → escape s = s)) ∧
    escape ("He said, \"ok\"") = "\"He said, \"\"ok\"\"\"" ∧
    (∀ name v, (csvRows name v).length = max 1 v.issues.length) := by
  refine ⟨?_, by decide, ?_⟩
  · intro s
    constructor
    · intro h
      have hs : s ≠ "" := by
        intro he
        rw [needsEscape_empty_false s he] at h
        exact Bool.noConfusion h
      have he : escape s = "\"" ++ escapeQuotes s ++ "\"" := by
        unfold escape
        rw [if_neg hs, if_pos h]
      refine ⟨he, ?_⟩
      rw [he]
      show (("\"" ++ escapeQuotes s ++ "\"").data.count '"') = _
      show ((("\"" ++ escapeQuotes s).data ++ ("\"" : String).data).count '"') = _
      rw [List.count_append]
      show ((("\"" : String).data ++ (escapeQuotes s).data).count '"' + _) = _
      rw [List.count_append]
      show (1 + (escapeQuotes s).data.count '"' + 1) = _
      unfold escapeQuotes countQuotes
      rw [count_doubleQuotes s.data]
      omega
    · intro h
      by_cases hs : s = ""
      · rw [hs]; rfl
      · unfold escape
        rw [if_neg hs, h]
        rfl
  · intro name v
    by_cases h : v.issues.isEmpty = true
    · unfold csvRows
      rw [if_pos h]
      rw [List.isEmpty_iff] at h
      rw [h]
      rfl
    · unfold csvRows
      rw [if_neg h]
      rw [List.length_map]
      have : v.issues.length ≠ 0 := by
        intro h0
        exact h (List.isEmpty_iff.mpr (List.length_eq_zero.mp h0))
      omega

/-- Witness for claim C10: a comma-containing field is quote-wrapped with
the expected quote count, and a plain field is emitted verbatim. -/
theorem exportToCSV_escaping_witness :
    escape ("a,b") = "\"a,b\"" ∧
    countQuotes (escape ("a,b")) = 2 * countQuotes ("a,b") + 2 ∧
    escape ("plain") = "plain" := by
  have h1 := (exportToCSV_escaping.1 ("a,b")).1 (by decide)
  have h2 := (exportToCSV_escaping.1 ("plain")).2 (by decide)
  exact ⟨h1.1.trans (by decide), h1.2, h2⟩
